import Mathlib

/-!
# GPD4Rotate: the control loop of `gpd4rotate.cpp`

A shallow embedding of `src/gpd4rotate.cpp`.

* Text (`std::string`, the content of a `char` buffer, the bytes of a pipe or of a
  file) is a `List Char`; the bytes are those of text, so the terminating NUL of a C
  string is not part of a list.
* The external world is explicit.  The bytes waiting in the `monitor-sensor` pipe are
  part of the state of the loop; the content of the toggle file, the output of the
  `dbus-send` query, the sensor bytes that arrive and the readiness of the inotify
  descriptor are the inputs of a pass of the loop.
* The effect of a pass is the list of the arguments of its `setOrientation` calls, in
  order; `setOrientation` itself is the list of the three commands it runs.
* A `while` loop over `fgets` is a function with a fuel argument that answers `none`
  when the fuel runs out.  Its caller passes one more than the number of bytes to
  read, which is enough for every loop that ends (`drainLoop_eq`, `sensorLoop_ends`,
  `captureLoop_short`); the capture loop of `getCurrentOrientation` does not end on a
  reply that fills its buffer, whatever the fuel (`captureLoop_full`), and there
  `none` stands for a call that does not return.
-/

namespace GPD4Rotate

/-- Text: a `std::string` or the content of a `char` buffer. -/
abbrev Str := List Char

/-! ## String primitives -/

/-- First position at which `pat` occurs in `s`: `s.find(pat)` of `std::string`,
with `none` for `npos`. -/
def find (pat : Str) : Str → Option Nat
  | [] => if pat.isPrefixOf [] then some 0 else none
  | c :: cs =>
    if pat.isPrefixOf (c :: cs) then some 0
    else (find pat cs).map (· + 1)

/-- First position at or after `pos` at which `pat` occurs: `s.find(pat, pos)`. -/
def findFrom (pat : Str) (s : Str) (pos : Nat) : Option Nat :=
  if pos ≤ s.length then (find pat (s.drop pos)).map (· + pos) else none

/-- The text from position `pos` on: `s.substr(pos)`, for `pos ≤ s.size()`. -/
def substr (s : Str) (pos : Nat) : Str := s.drop pos

/-- At most `n` characters from position `pos` on: `s.substr(pos, n)`. -/
def substrLen (s : Str) (pos n : Nat) : Str := (s.drop pos).take n

/-- The double quote character. -/
def dq : Char := Char.ofNat 34

/-- The newline character. -/
def nl : Char := Char.ofNat 10

/-! ## `fgets` -/

/-- The characters one `fgets` call stores when it may store at most `k`: it
stops after a newline, after `k` characters, or when the stream has no more.
The result is the stored text and the rest of the stream. -/
def readChars : Nat → Str → Str × Str
  | 0, s => ([], s)
  | _ + 1, [] => ([], [])
  | k + 1, c :: cs =>
    if c = nl then ([c], cs)
    else ((c :: (readChars k cs).1), (readChars k cs).2)

/-- The call `fgets(buf, n, stream)` on a stream holding the bytes `s`: `none` is
the null pointer (nothing to read), otherwise the text stored in the buffer and
the bytes left in the stream.  With `n = 1` there is room for the terminator
only: the call stores the empty text, reads nothing and succeeds. -/
def fgets (n : Nat) (s : Str) : Option (Str × Str) :=
  if n = 0 then none
  else if n = 1 then some ([], s)
  else match s with
    | [] => none
    | _ :: _ => some (readChars (n - 1) s)

/-! ## `setOrientation` -/

/-- The monitor the transform is set on. -/
def MONITOR_NAME : Str := "eDP-1".toList

/-- The fixed resolution of the monitor command. -/
def RESOLUTION : Str := "1600x2560@144".toList

/-- The fixed scale of the monitor command. -/
def SCALE : Str := "2".toList

/-- Decimal text of an `int`: `std::to_string`. -/
def to_string (n : Int) : Str := (toString n).toList

/-- The three commands `setOrientation(transform)` hands to `system`, in order:
monitor, touch device, tablet.  No exit status is looked at. -/
def setOrientation (transform : Int) : List Str :=
  [ "hyprctl keyword monitor ".toList ++ [dq] ++ MONITOR_NAME ++ ",".toList ++
      RESOLUTION ++ ",0x0,".toList ++ SCALE ++ ",transform,".toList ++
      to_string transform ++ [dq],
    "hyprctl keyword input:touchdevice:transform ".toList ++ to_string transform,
    "hyprctl keyword input:tablet:transform ".toList ++ to_string transform ]

/-- The external commands issued by a sequence of `setOrientation` calls. -/
def commands (calls : List Int) : List Str := (calls.map setOrientation).flatten

/-! ## `readToggleState` -/

/-- White space skipped by formatted input (`isspace` in the C locale). -/
def isspace (c : Char) : Bool :=
  c.toNat = 32 || (9 ≤ c.toNat && c.toNat ≤ 13)

/-- A decimal digit. -/
def isdigit (c : Char) : Bool := 48 ≤ c.toNat && c.toNat ≤ 57

/-- Value of a run of decimal digits. -/
def digitsValue (ds : Str) : Nat := ds.foldl (fun acc c => 10 * acc + (c.toNat - 48)) 0

/-- Text after the leading white space. -/
def skipSpace (s : Str) : Str := s.dropWhile isspace

/-- The sign that opens a number, when there is one, and the text after it. -/
def takeSign : Str → Bool × Str
  | c :: cs => if c = '-' then (true, cs) else if c = '+' then (false, cs) else (false, c :: cs)
  | [] => (false, [])

/-- The run of digits a number starts with, after white space and sign. -/
def leadingDigits (s : Str) : Str := (takeSign (skipSpace s)).2.takeWhile isdigit

/-- The integer the content starts with, as `operator>>` reads it: white space,
an optional sign, decimal digits.  `none` when no digit is there. -/
def leadingInt (s : Str) : Option Int :=
  if leadingDigits s = [] then none
  else if (takeSign (skipSpace s)).1 then some (-(digitsValue (leadingDigits s) : Int))
  else some (digitsValue (leadingDigits s) : Int)

/-- Largest `int`. -/
def INT_MAX : Int := 2147483647

/-- Smallest `int`. -/
def INT_MIN : Int := -2147483648

/-- The value `file >> state` stores in the `int`: the leading integer, the nearest
`int` when it does not fit, and 0 when the content has no leading integer. -/
def extractInt (s : Str) : Int :=
  match leadingInt s with
  | none => 0
  | some v => if v > INT_MAX then INT_MAX else if v < INT_MIN then INT_MIN else v

/-- The function `readToggleState`: `file` is the content of the toggle file, `none` when it
cannot be opened.  The `int` read is returned as a `bool`. -/
def readToggleState (file : Option Str) : Bool :=
  let state : Int :=
    match file with
    | some content => extractInt content
    | none => 0
  state != 0

/-! ## `getCurrentOrientation` -/

/-- The loop `while (fgets(buf + strlen(buf), sizeof(buf) - strlen(buf), p)) {}` over the
512-byte buffer: `buf` is the text gathered so far, `p` the output still to read. -/
def captureLoop : Nat → Str → Str → Option Str
  | 0, _, _ => none
  | fuel + 1, buf, p =>
    match fgets (512 - buf.length) p with
    | none => some buf
    | some (got, rest) => captureLoop fuel (buf ++ got) rest

/-- The word the reply is searched for. -/
def variantTag : Str := "variant".toList

/-- The parse of the captured reply: the text between the first double quote at or
after `variant` and the next double quote. -/
def parseReply (output : Str) : Str :=
  match find variantTag output with
  | none => []
  | some variant_pos =>
    match findFrom [dq] output variant_pos with
    | none => []
    | some quote_pos =>
      match findFrom [dq] output (quote_pos + 1) with
      | none => []
      | some end_quote_pos => substrLen output (quote_pos + 1) (end_quote_pos - quote_pos - 1)

/-- The function `getCurrentOrientation`: `reply` is the output of the `dbus-send` process,
`none` when `popen` fails.  The answer `none` means the function does not return. -/
def getCurrentOrientation (reply : Option Str) : Option Str :=
  match reply with
  | none => some []
  | some out =>
    match captureLoop (out.length + 1) [] out with
    | none => none
    | some output => some (parseReply output)

/-! ## The control loop of `main` -/

/-- The two variables of the loop. -/
structure State where
  rotation_enabled : Bool
  last_orientation : Str
  deriving DecidableEq, Repr

/-- The loop variables together with the bytes waiting in the `monitor-sensor` pipe. -/
structure Sys where
  state : State
  pipe : Str
  deriving DecidableEq, Repr

/-- What one pass of the loop meets: whether `select` fails, whether the inotify
descriptor is readable, the toggle file as `readToggleState` would find it, the
sensor bytes that arrived since the pass before, and the output the `dbus-send`
query would give. -/
structure Event where
  select_failed : Bool
  inotify_ready : Bool
  toggle_file : Option Str
  arrived : Str
  dbus_reply : Option Str
  deriving DecidableEq, Repr

/-- The marker in front of the orientation in a sensor line. -/
def changedTag : Str := "changed: ".toList

/-- The line without its trailing newline (`if (!orientation.empty() &&
orientation.back() == '\n') orientation.pop_back()`). -/
def chomp (line : Str) : Str :=
  if line.getLast? = some nl then line.dropLast else line

/-- The text the sensor branch compares and matches: the line without its trailing
newline, cut to what follows the first `changed: ` when the line has one. -/
def orientationText (line : Str) : Str :=
  match find changedTag (chomp line) with
  | some changed_pos => substr (chomp line) (changed_pos + 9)
  | none => chomp line

/-- The guarded chain of `find` tests on the extracted text (`if (orientation !=
last_orientation) ...`): the new `last_orientation` and the `setOrientation` calls made. -/
def applyOrientation (last_orientation : Str) (orientation : Str) : Str × List Int :=
  if orientation ≠ last_orientation then
    if (find "normal".toList orientation).isSome then (orientation, [3])
    else if (find "right-up".toList orientation).isSome then (orientation, [2])
    else if (find "left-up".toList orientation).isSome then (orientation, [0])
    else if (find "bottom-up".toList orientation).isSome then (orientation, [1])
    else (last_orientation, [])
  else (last_orientation, [])

/-- The body of the sensor `while` loop for one line read by `fgets`: the new
`last_orientation` and the `setOrientation` calls made. -/
def sensorLine (last_orientation : Str) (line : Str) : Str × List Int :=
  applyOrientation last_orientation (orientationText line)

/-- The loop `while (fgets(line, sizeof(line), pipe) != nullptr)` of the sensor branch:
the final `last_orientation`, the bytes left in the pipe and the calls made. -/
def sensorLoop : Nat → Str → Str → Option (Str × Str × List Int)
  | 0, _, _ => none
  | fuel + 1, last_orientation, pipe =>
    match fgets 256 pipe with
    | none => some (last_orientation, pipe, [])
    | some (line, rest) =>
      match sensorLoop fuel (sensorLine last_orientation line).1 rest with
      | none => none
      | some (last, left, calls) => some (last, left, (sensorLine last_orientation line).2 ++ calls)

/-- The drain loop of the enable transition: every line is read and dropped. -/
def drainLoop : Nat → Str → Option Str
  | 0, _ => none
  | fuel + 1, pipe =>
    match fgets 256 pipe with
    | none => some pipe
    | some (_, rest) => drainLoop fuel rest

/-- The `transform` the enable transition computes from the queried orientation;
`-1` stands for no transform. -/
def transformOf (current : Str) : Int :=
  if current = "normal".toList then 3
  else if current = "right-up".toList then 2
  else if current = "left-up".toList then 0
  else if current = "bottom-up".toList then 1
  else -1

/-- The enable transition after the query answered `current`: the new
`last_orientation` and the calls made. -/
def applyCurrent (last_orientation : Str) (current : Str) : Str × List Int :=
  if current ≠ [] ∧ current ≠ "undefined".toList ∧ current ≠ last_orientation then
    if transformOf current ≠ -1 then (current, [transformOf current])
    else (last_orientation, [])
  else (last_orientation, [])

/-- The toggle branch (`FD_ISSET(fd, &set)`): re-read the flag and act on a change. -/
def toggleBranch (st : State) (pipe : Str) (toggle_file dbus_reply : Option Str) :
    Option (State × Str × List Int) :=
  let new_state := readToggleState toggle_file
  if new_state ≠ st.rotation_enabled then
    if new_state then
      match drainLoop (pipe.length + 1) pipe with
      | none => none
      | some drained =>
        match getCurrentOrientation dbus_reply with
        | none => none
        | some current =>
          some (⟨true, (applyCurrent st.last_orientation current).1⟩, drained,
            (applyCurrent st.last_orientation current).2)
    else some (⟨false, []⟩, pipe, [])
  else some (st, pipe, [])

/-- The sensor branch (`rotation_enabled && FD_ISSET(pipe_fd, &set)`), entered with the
state the toggle branch left.  `pipe_ready` says that the pipe was put in the
`select` set and came back readable. -/
def sensorBranch (st : State) (pipe : Str) (pipe_ready : Bool) :
    Option (State × Str × List Int) :=
  if st.rotation_enabled && pipe_ready then
    match sensorLoop (pipe.length + 1) st.last_orientation pipe with
    | none => none
    | some (last, left, calls) => some (⟨st.rotation_enabled, last⟩, left, calls)
  else some (st, pipe, [])

/-- One pass of `while (true)`.  The pipe is in the `select` set only when rotation
is enabled at the top of the pass, and it is readable when bytes wait in it.  The
result is the next state of the loop with the `setOrientation` calls of the pass;
`none` means the pass does not end. -/
def iteration (sys : Sys) (ev : Event) : Option (Sys × List Int) :=
  let pipe := sys.pipe ++ ev.arrived
  let pipe_ready := sys.state.rotation_enabled && !pipe.isEmpty
  if ev.select_failed then some (⟨sys.state, pipe⟩, [])
  else
    match (if ev.inotify_ready then toggleBranch sys.state pipe ev.toggle_file ev.dbus_reply
           else some (sys.state, pipe, [])) with
    | none => none
    | some (st1, pipe1, calls1) =>
      match sensorBranch st1 pipe1 pipe_ready with
      | none => none
      | some (st2, pipe2, calls2) => some (⟨st2, pipe2⟩, calls1 ++ calls2)

/-- The loop over a sequence of passes, with all calls in order. -/
def run : Sys → List Event → Option (Sys × List Int)
  | sys, [] => some (sys, [])
  | sys, ev :: evs =>
    match iteration sys ev with
    | none => none
    | some (sys1, calls1) =>
      match run sys1 evs with
      | none => none
      | some (sys2, calls2) => some (sys2, calls1 ++ calls2)

/-- The state `main` enters the loop with: the flag as read, no last orientation,
nothing read from the sensor yet. -/
def startup (toggle_file : Option Str) : Sys :=
  ⟨⟨readToggleState toggle_file, []⟩, []⟩

/-- The states the loop can be in. -/
inductive Reachable : Sys → Prop
  | start (toggle_file : Option Str) : Reachable (startup toggle_file)
  | pass (sys : Sys) (ev : Event) (next : Sys) (calls : List Int) :
      Reachable sys → iteration sys ev = some (next, calls) → Reachable next


/-! ## Definitions used to state the properties -/

/-- A pattern no proper start of which is also its end: it cannot begin inside
text that is followed by the pattern itself, unless it lies in that text. -/
def Unbordered (pat : Str) : Prop :=
  ∀ q r : Str, q ≠ [] → pat <+: q ++ (pat ++ r) → pat <+: q

/-- The bytes a sequence of lines puts in the pipe: every line followed by a newline. -/
def joinLines (ls : List Str) : Str := (ls.map (· ++ [nl])).flatten

/-- The sensor loop body over a sequence of whole lines, each read with its newline. -/
def sensorLines : Str → List Str → Str × List Int
  | last_orientation, [] => (last_orientation, [])
  | last_orientation, l :: ls =>
    ((sensorLines (sensorLine last_orientation (l ++ [nl])).1 ls).1,
      (sensorLine last_orientation (l ++ [nl])).2 ++
        (sensorLines (sensorLine last_orientation (l ++ [nl])).1 ls).2)

/-- A line that `fgets` reads whole into the 256-byte `line` buffer: no newline
inside and, with its newline, at most 255 characters. -/
def FitsLine (l : Str) : Prop := nl ∉ l ∧ l.length ≤ 254

instance (l : Str) : Decidable (FitsLine l) := by unfold FitsLine; infer_instance

/-- The four orientation keywords of the specification. -/
inductive Orientation where
  | normal
  | right_up
  | left_up
  | bottom_up
  deriving DecidableEq, Repr

/-- The keyword as the sensor and the orientation service write it. -/
def Orientation.keyword : Orientation → Str
  | .normal => "normal".toList
  | .right_up => "right-up".toList
  | .left_up => "left-up".toList
  | .bottom_up => "bottom-up".toList

/-- The transform code the specification gives the keyword:
normal 3, right-up 2, left-up 0, bottom-up 1. -/
def Orientation.code : Orientation → Int
  | .normal => 3
  | .right_up => 2
  | .left_up => 0
  | .bottom_up => 1

/-- The text of `last_orientation` after the orientation `prev` was applied from its
bare keyword; `none` is the empty text the loop starts with. -/
def lastText : Option Orientation → Str
  | none => []
  | some o => o.keyword

/-- The orientations that differ from the one before them, the first being compared
with `prev`. -/
def dedupFrom (prev : Option Orientation) : List Orientation → List Orientation
  | [] => []
  | o :: os => if prev = some o then dedupFrom (some o) os else o :: dedupFrom (some o) os

/-- A sequence of orientations with consecutive duplicates removed. -/
def dedupConsecutive (os : List Orientation) : List Orientation := dedupFrom none os

/-- The sensor line `<prefix>changed: <keyword>`. -/
def lineOf (x : Str × Orientation) : Str := x.1 ++ changedTag ++ x.2.keyword

/-- A pass in which `select` reports no toggle event and the given lines have
arrived in the pipe. -/
def sensorEvent (lines : List Str) : Event :=
  ⟨false, false, none, joinLines lines, none⟩

/-- The orientation seen last in a sequence, `prev` when the sequence is empty. -/
def lastSeen (prev : Option Orientation) (os : List Orientation) : Option Orientation :=
  os.foldl (fun _ o => some o) prev

/-- A prefix of 255 characters, as long as one `fgets` call can store, that names an
orientation and does not contain `changed: `. -/
def longPrefix : Str := "right-up".toList ++ List.replicate 247 ' '

/-- The reply of the orientation service that carries the given text between quotes,
as `dbus-send --print-reply` prints it. -/
def replyWith (text : Str) : Str :=
  "method return time=1.5 sender=:1.7 -> destination=:1.90 serial=45 reply_serial=2".toList ++
    [nl] ++ "   variant       string ".toList ++ [dq] ++ text ++ [dq, nl]

/-- A pass in which the toggle file has changed and reads `content`, the sensor bytes
`arrived` have come in, and the orientation service would answer `reply`. -/
def toggleEvent (content arrived reply : Str) : Event :=
  ⟨false, true, some content, arrived, some reply⟩

/-- The parsing contract of the specification: the first of normal, right-up,
left-up, bottom-up, in that order, whose keyword occurs in the text. -/
def firstKeyword (text : Str) : Option Orientation :=
  [Orientation.normal, Orientation.right_up, Orientation.left_up, Orientation.bottom_up].find?
    (fun o => decide (o.keyword <:+: text))

/-- A reply of more than 511 bytes: the answer `normal` of the orientation service
followed by a line of 500 characters. -/
def longReply : Str := replyWith "normal".toList ++ List.replicate 500 'x' ++ [nl]

/-! ## Facts about `find` -/

theorem find_isSome_iff (pat s : Str) : (find pat s).isSome = true ↔ pat <:+: s := by
  induction s with
  | nil =>
    simp only [find, List.isPrefixOf_iff_prefix]
    by_cases h : pat <+: []
    · simp [h, h.isInfix]
    · have hi : ¬ pat <:+: [] := fun hi => h (by rw [List.infix_nil] at hi; simp [hi])
      simp [h, hi]
  | cons c cs ih =>
    simp only [find, List.isPrefixOf_iff_prefix]
    by_cases h : pat <+: c :: cs
    · simp [h, h.isInfix]
    · simp only [h, if_false, Option.isSome_map']
      rw [ih, List.infix_cons_iff]
      simp [h]

theorem find_eq_none_iff (pat s : Str) : find pat s = none ↔ ¬ pat <:+: s := by
  rw [← find_isSome_iff]
  cases find pat s <;> simp

theorem find_append_of_unbordered {pat : Str} (hb : Unbordered pat) (p r : Str)
    (hp : ¬ pat <:+: p) : find pat (p ++ (pat ++ r)) = some p.length := by
  induction p with
  | nil =>
    cases pat with
    | nil => cases r <;> simp [find]
    | cons a pat =>
      simp only [List.nil_append, List.cons_append, find, List.length_nil]
      rw [if_pos]
      rw [List.isPrefixOf_iff_prefix]
      exact List.prefix_append _ _
  | cons c p ih =>
    have hnot : ¬ pat <+: c :: (p ++ (pat ++ r)) := by
      intro h
      exact hp (hb (c :: p) r (by simp) h).isInfix
    have hp2 : ¬ pat <:+: p := fun h => hp (h.trans (List.suffix_cons c p).isInfix)
    have hnot2 : ¬ pat <+: c :: p.append (pat ++ r) := hnot
    have ih2 : find pat (p.append (pat ++ r)) = some p.length := ih hp2
    simp only [List.cons_append, find, List.isPrefixOf_iff_prefix, hnot2, if_false, ih2,
      Option.map_some', List.length_cons]

theorem unbordered_changedTag : Unbordered changedTag := by
  intro q r hq h
  simp only [changedTag] at h ⊢
  rcases q with _ | ⟨c1, _ | ⟨c2, _ | ⟨c3, _ | ⟨c4, _ | ⟨c5, _ | ⟨c6, _ | ⟨c7, _ | ⟨c8, _ | ⟨c9, q⟩⟩⟩⟩⟩⟩⟩⟩⟩
  · exact absurd rfl hq
  all_goals simp [String.toList, List.cons_prefix_cons] at h ⊢
  exact h

/-! ## Facts about `fgets` and the loops built on it -/

theorem readChars_append (k : Nat) (s : Str) : (readChars k s).1 ++ (readChars k s).2 = s := by
  induction k generalizing s with
  | zero => simp [readChars]
  | succ k ih =>
    cases s with
    | nil => simp [readChars]
    | cons c cs =>
      by_cases hc : c = nl
      · simp [readChars, hc]
      · simp [readChars, hc, ih cs]

theorem readChars_length_le (k : Nat) (s : Str) : (readChars k s).1.length ≤ k := by
  induction k generalizing s with
  | zero => simp [readChars]
  | succ k ih =>
    cases s with
    | nil => simp [readChars]
    | cons c cs =>
      by_cases hc : c = nl
      · simp [readChars, hc]
      · simpa [readChars, hc] using ih cs

theorem readChars_rest_lt (k : Nat) (c : Char) (cs : Str) :
    (readChars (k + 1) (c :: cs)).2.length < (c :: cs).length := by
  have h := readChars_append k cs
  have hl : (readChars k cs).1.length + (readChars k cs).2.length = cs.length := by
    rw [← List.length_append, h]
  by_cases hc : c = nl
  · simp [readChars, hc]
  · simp only [readChars, hc, if_false, List.length_cons]
    omega

theorem readChars_line (k : Nat) (l rest : Str) (hnl : nl ∉ l) (hk : l.length < k) :
    readChars k (l ++ nl :: rest) = (l ++ [nl], rest) := by
  induction l generalizing k with
  | nil =>
    cases k with
    | zero => simp at hk
    | succ k => simp [readChars]
  | cons c l ih =>
    cases k with
    | zero => simp at hk
    | succ k =>
      have hc : c ≠ nl := fun h => hnl (by simp [h])
      have hl : nl ∉ l := fun h => hnl (by simp [h])
      have hk2 : l.length < k := by simpa using hk
      simp [readChars, hc, ih k hl hk2]

theorem fgets_line (l rest : Str) (h : FitsLine l) :
    fgets 256 (l ++ nl :: rest) = some (l ++ [nl], rest) := by
  have hr := readChars_line 255 l rest h.1 (by have := h.2; omega)
  cases l with
  | nil => simpa [fgets] using hr
  | cons c l => simpa [fgets] using hr

theorem fgets_256_rest_lt (s line rest : Str) (h : fgets 256 s = some (line, rest)) :
    rest.length < s.length := by
  cases s with
  | nil => simp [fgets] at h
  | cons c cs =>
    simp only [fgets, Nat.reduceEqDiff, if_false, Option.some.injEq] at h
    have := readChars_rest_lt 254 c cs
    rw [show (256 : Nat) - 1 = 254 + 1 from rfl] at h
    rw [h] at this
    exact this

theorem fgets_256_eq_none (s : Str) : fgets 256 s = none ↔ s = [] := by
  cases s <;> simp [fgets]

theorem drainLoop_eq (fuel : Nat) (pipe : Str) (h : pipe.length < fuel) :
    drainLoop fuel pipe = some [] := by
  induction fuel generalizing pipe with
  | zero => omega
  | succ fuel ih =>
    cases hf : fgets 256 pipe with
    | none =>
      rw [fgets_256_eq_none] at hf
      simp [drainLoop, hf, fgets]
    | some r =>
      obtain ⟨line, rest⟩ := r
      have hlt := fgets_256_rest_lt pipe line rest hf
      simp only [drainLoop, hf]
      exact ih rest (by omega)

theorem sensorLoop_ends (fuel : Nat) (last pipe : Str) (h : pipe.length < fuel) :
    ∃ last2 calls, sensorLoop fuel last pipe = some (last2, [], calls) := by
  induction fuel generalizing pipe last with
  | zero => omega
  | succ fuel ih =>
    cases hf : fgets 256 pipe with
    | none =>
      rw [fgets_256_eq_none] at hf
      exact ⟨last, [], by simp [sensorLoop, hf, fgets]⟩
    | some r =>
      obtain ⟨line, rest⟩ := r
      have hlt := fgets_256_rest_lt pipe line rest hf
      obtain ⟨last2, calls, h2⟩ := ih (sensorLine last line).1 rest (by omega)
      exact ⟨last2, (sensorLine last line).2 ++ calls, by simp [sensorLoop, hf, h2]⟩

theorem joinLines_cons (l : Str) (ls : List Str) :
    joinLines (l :: ls) = l ++ nl :: joinLines ls := by
  simp [joinLines]

theorem sensorLoop_lines (fuel : Nat) (last : Str) (ls : List Str)
    (hfit : ∀ l ∈ ls, FitsLine l) (h : (joinLines ls).length < fuel) :
    sensorLoop fuel last (joinLines ls) =
      some ((sensorLines last ls).1, [], (sensorLines last ls).2) := by
  induction ls generalizing fuel last with
  | nil =>
    cases fuel with
    | zero => omega
    | succ fuel => simp [joinLines, sensorLoop, fgets, sensorLines]
  | cons l ls ih =>
    cases fuel with
    | zero => omega
    | succ fuel =>
      have hl : FitsLine l := hfit l (by simp)
      have hls : ∀ x ∈ ls, FitsLine x := fun x hx => hfit x (by simp [hx])
      rw [joinLines_cons] at h ⊢
      have hlen : (joinLines ls).length < fuel := by
        simp only [List.length_append, List.length_cons] at h
        omega
      simp only [sensorLoop, fgets_line l _ hl, ih fuel _ hls hlen, sensorLines]

/-! ## The sensor branch on well-formed lines -/

theorem chomp_append_nl (l : Str) : chomp (l ++ [nl]) = l := by
  simp [chomp]

theorem orientationText_of_chomp (line p r : Str) (hc : chomp line = p ++ changedTag ++ r)
    (hp : ¬ changedTag <:+: p) : orientationText line = r := by
  have hf := find_append_of_unbordered unbordered_changedTag p r hp
  rw [← List.append_assoc] at hf
  simp only [orientationText, hc, hf, substr]
  rw [List.append_assoc, List.drop_append]
  simp [changedTag, String.toList]

theorem orientationText_of_absent (line : Str) (h : ¬ changedTag <:+: chomp line) :
    orientationText line = chomp line := by
  simp only [orientationText, (find_eq_none_iff _ _).2 h]

theorem applyOrientation_keyword (prev : Option Orientation) (o : Orientation) :
    applyOrientation (lastText prev) o.keyword =
      if prev = some o then (lastText prev, []) else (o.keyword, [o.code]) := by
  cases prev with
  | none => cases o <;> decide
  | some q => cases q <;> cases o <;> decide

theorem sensorLine_lineOf (prev : Option Orientation) (x : Str × Orientation)
    (hp : ¬ changedTag <:+: x.1) :
    sensorLine (lastText prev) (lineOf x ++ [nl]) =
      if prev = some x.2 then (lastText prev, []) else (x.2.keyword, [x.2.code]) := by
  have ht : orientationText (lineOf x ++ [nl]) = x.2.keyword :=
    orientationText_of_chomp _ x.1 x.2.keyword (by rw [chomp_append_nl]; rfl) hp
  rw [sensorLine, ht]
  exact applyOrientation_keyword prev x.2

theorem dedupFrom_append (prev : Option Orientation) (xs ys : List Orientation) :
    dedupFrom prev (xs ++ ys) = dedupFrom prev xs ++ dedupFrom (lastSeen prev xs) ys := by
  induction xs generalizing prev with
  | nil => simp [dedupFrom, lastSeen]
  | cons x xs ih =>
    by_cases h : prev = some x
    · simp [dedupFrom, h, ih, lastSeen]
    · simp [dedupFrom, h, ih, lastSeen]

theorem lastSeen_append (prev : Option Orientation) (xs ys : List Orientation) :
    lastSeen prev (xs ++ ys) = lastSeen (lastSeen prev xs) ys := by
  simp [lastSeen]

theorem sensorLines_lineOf (prev : Option Orientation) (b : List (Str × Orientation))
    (hp : ∀ x ∈ b, ¬ changedTag <:+: x.1) :
    sensorLines (lastText prev) (b.map lineOf) =
      (lastText (lastSeen prev (b.map Prod.snd)),
        (dedupFrom prev (b.map Prod.snd)).map Orientation.code) := by
  induction b generalizing prev with
  | nil => simp [sensorLines, lastSeen, dedupFrom]
  | cons x b ih =>
    have hx : ¬ changedTag <:+: x.1 := hp x (by simp)
    have hb : ∀ y ∈ b, ¬ changedTag <:+: y.1 := fun y hy => hp y (by simp [hy])
    simp only [List.map_cons, sensorLines, sensorLine_lineOf prev x hx]
    by_cases h : prev = some x.2
    · have h2 := ih (some x.2) hb
      rw [← h] at h2
      simp only [h, if_true, dedupFrom, List.nil_append]
      rw [← h, h2]
      simp [lastSeen, h]
    · have h2 := ih (some x.2) hb
      have h3 : lastText (some x.2) = x.2.keyword := rfl
      rw [h3] at h2
      simp only [h, if_false, dedupFrom, h2]
      simp [lastSeen]

theorem iteration_sensorEvent (last : Str) (lines : List Str) (hfit : ∀ l ∈ lines, FitsLine l) :
    iteration ⟨⟨true, last⟩, []⟩ (sensorEvent lines) =
      some (⟨⟨true, (sensorLines last lines).1⟩, []⟩, (sensorLines last lines).2) := by
  cases lines with
  | nil => simp [iteration, sensorEvent, joinLines, sensorBranch, sensorLines]
  | cons l ls =>
    have hl := sensorLoop_lines ((joinLines (l :: ls)).length + 1) last (l :: ls) hfit
      (Nat.lt_succ_self _)
    have hne : (joinLines (l :: ls)).isEmpty = false := by
      rw [joinLines_cons]; cases l <;> simp
    simp [iteration, sensorEvent, sensorBranch, hne, hl]

theorem run_sensorEvents (prev : Option Orientation) (batches : List (List (Str × Orientation)))
    (hform : ∀ b ∈ batches, ∀ x ∈ b, ¬ changedTag <:+: x.1 ∧ FitsLine (lineOf x)) :
    run ⟨⟨true, lastText prev⟩, []⟩ (batches.map (fun b => sensorEvent (b.map lineOf))) =
      some (⟨⟨true, lastText (lastSeen prev (batches.flatten.map Prod.snd))⟩, []⟩,
        (dedupFrom prev (batches.flatten.map Prod.snd)).map Orientation.code) := by
  induction batches generalizing prev with
  | nil => simp [run, lastSeen, dedupFrom]
  | cons b bs ih =>
    have hfit : ∀ l ∈ b.map lineOf, FitsLine l := by
      intro l hl
      obtain ⟨x, hx, rfl⟩ := List.mem_map.1 hl
      exact (hform b (by simp) x hx).2
    have hp : ∀ x ∈ b, ¬ changedTag <:+: x.1 := fun x hx => (hform b (by simp) x hx).1
    have hbs : ∀ c ∈ bs, ∀ x ∈ c, ¬ changedTag <:+: x.1 ∧ FitsLine (lineOf x) :=
      fun c hc => hform c (by simp [hc])
    simp only [List.map_cons, run, iteration_sensorEvent _ _ hfit, sensorLines_lineOf prev b hp,
      ih _ hbs, List.flatten_cons, List.map_append, dedupFrom_append, lastSeen_append]

/-! ## The passes of the loop -/

theorem toggleBranch_enable (st : State) (pipe : Str) (toggle_file dbus_reply : Option Str)
    (current : Str) (hst : st.rotation_enabled = false)
    (hflag : readToggleState toggle_file = true)
    (hq : getCurrentOrientation dbus_reply = some current) :
    toggleBranch st pipe toggle_file dbus_reply =
      some (⟨true, (applyCurrent st.last_orientation current).1⟩, [],
        (applyCurrent st.last_orientation current).2) := by
  simp [toggleBranch, hst, hflag, hq, drainLoop_eq (pipe.length + 1) pipe (Nat.lt_succ_self _)]

theorem toggleBranch_disable (st : State) (pipe : Str) (toggle_file dbus_reply : Option Str)
    (hst : st.rotation_enabled = true) (hflag : readToggleState toggle_file = false) :
    toggleBranch st pipe toggle_file dbus_reply = some (⟨false, []⟩, pipe, []) := by
  simp [toggleBranch, hst, hflag]

theorem toggleBranch_same (st : State) (pipe : Str) (toggle_file dbus_reply : Option Str)
    (hflag : readToggleState toggle_file = st.rotation_enabled) :
    toggleBranch st pipe toggle_file dbus_reply = some (st, pipe, []) := by
  simp [toggleBranch, hflag]

theorem iteration_enable (sys : Sys) (ev : Event) (current : Str)
    (hst : sys.state.rotation_enabled = false)
    (hsel : ev.select_failed = false) (hready : ev.inotify_ready = true)
    (hflag : readToggleState ev.toggle_file = true)
    (hq : getCurrentOrientation ev.dbus_reply = some current) :
    iteration sys ev =
      some (⟨⟨true, (applyCurrent sys.state.last_orientation current).1⟩, []⟩,
        (applyCurrent sys.state.last_orientation current).2) := by
  simp [iteration, hsel, hready, hst, sensorBranch,
    toggleBranch_enable sys.state _ _ _ current hst hflag hq]

theorem iteration_disable (sys : Sys) (ev : Event)
    (hst : sys.state.rotation_enabled = true)
    (hsel : ev.select_failed = false) (hready : ev.inotify_ready = true)
    (hflag : readToggleState ev.toggle_file = false) :
    iteration sys ev = some (⟨⟨false, []⟩, sys.pipe ++ ev.arrived⟩, []) := by
  simp [iteration, hsel, hready, sensorBranch,
    toggleBranch_disable sys.state _ _ ev.dbus_reply hst hflag]

theorem iteration_disabled_idle (sys : Sys) (ev : Event)
    (hst : sys.state.rotation_enabled = false)
    (hev : ev.select_failed = true ∨ ev.inotify_ready = false ∨
      readToggleState ev.toggle_file = false) :
    iteration sys ev = some (⟨sys.state, sys.pipe ++ ev.arrived⟩, []) := by
  by_cases hsel : ev.select_failed = true
  · simp [iteration, hsel]
  · by_cases hready : ev.inotify_ready = true
    · have hflag : readToggleState ev.toggle_file = false := by
        rcases hev with h | h | h
        · exact absurd h hsel
        · rw [hready] at h; cases h
        · exact h
      simp [iteration, hsel, hready, hst, sensorBranch,
        toggleBranch_same sys.state _ _ ev.dbus_reply (hflag.trans hst.symm)]
    · simp [iteration, hsel, hready, hst, sensorBranch]

theorem applyCurrent_keyword (o : Orientation) :
    applyCurrent [] o.keyword = (o.keyword, [o.code]) := by
  cases o <;> decide

theorem applyCurrent_keyword_ne (last : Str) (o : Orientation) (h : o.keyword ≠ last) :
    applyCurrent last o.keyword = (o.keyword, [o.code]) := by
  cases o <;>
    simp [applyCurrent, transformOf, Orientation.keyword, Orientation.code] at h ⊢ <;> exact h

theorem applyCurrent_unknown (last current : Str) (h : ∀ o : Orientation, current ≠ o.keyword) :
    applyCurrent last current = (last, []) := by
  have h1 := h Orientation.normal
  have h2 := h Orientation.right_up
  have h3 := h Orientation.left_up
  have h4 := h Orientation.bottom_up
  simp [Orientation.keyword] at h1 h2 h3 h4
  simp [applyCurrent, transformOf, h1, h2, h3, h4]

theorem applyOrientation_unknown (last text : Str)
    (h : ∀ o : Orientation, ¬ o.keyword <:+: text) :
    applyOrientation last text = (last, []) := by
  have h1 := (find_eq_none_iff _ _).2 (h Orientation.normal)
  have h2 := (find_eq_none_iff _ _).2 (h Orientation.right_up)
  have h3 := (find_eq_none_iff _ _).2 (h Orientation.left_up)
  have h4 := (find_eq_none_iff _ _).2 (h Orientation.bottom_up)
  simp [Orientation.keyword] at h1 h2 h3 h4
  simp [applyOrientation, h1, h2, h3, h4]

theorem toggleBranch_calls (st st1 : State) (pipe pipe1 : Str) (toggle_file dbus_reply : Option Str)
    (calls1 : List Int)
    (h : toggleBranch st pipe toggle_file dbus_reply = some (st1, pipe1, calls1))
    (hc : calls1 ≠ []) : st1.rotation_enabled = true := by
  unfold toggleBranch at h
  simp only at h
  split at h
  · split at h
    · split at h
      · cases h
      · split at h
        · cases h
        · simp only [Option.some.injEq, Prod.mk.injEq] at h
          rw [← h.1]
    · simp only [Option.some.injEq, Prod.mk.injEq] at h
      exact absurd h.2.2.symm hc
  · simp only [Option.some.injEq, Prod.mk.injEq] at h
    exact absurd h.2.2.symm hc

theorem sensorBranch_flag (st st2 : State) (pipe pipe2 : Str) (ready : Bool) (calls2 : List Int)
    (h : sensorBranch st pipe ready = some (st2, pipe2, calls2)) :
    st2.rotation_enabled = st.rotation_enabled ∧
      (st.rotation_enabled = false → st2 = st ∧ pipe2 = pipe ∧ calls2 = []) := by
  unfold sensorBranch at h
  split at h
  · rename_i hcond
    split at h
    · cases h
    · simp only [Option.some.injEq, Prod.mk.injEq] at h
      refine ⟨by rw [← h.1], fun hf => ?_⟩
      rw [hf] at hcond
      simp at hcond
  · simp only [Option.some.injEq, Prod.mk.injEq] at h
    exact ⟨by rw [← h.1], fun _ => ⟨h.1.symm, h.2.1.symm, h.2.2.symm⟩⟩

theorem iteration_calls (sys next : Sys) (ev : Event) (calls : List Int)
    (h : iteration sys ev = some (next, calls)) (hc : calls ≠ []) :
    next.state.rotation_enabled = true := by
  unfold iteration at h
  simp only at h
  split at h
  · simp only [Option.some.injEq, Prod.mk.injEq] at h
    exact absurd h.2.symm hc
  · split at h
    · cases h
    · rename_i st1 pipe1 calls1 htog
      split at h
      · cases h
      · rename_i st2 pipe2 calls2 hsen
        simp only [Option.some.injEq, Prod.mk.injEq] at h
        obtain ⟨hnext, hcalls⟩ := h
        have hflag := sensorBranch_flag _ _ _ _ _ _ hsen
        rw [← hnext]
        simp only
        rw [hflag.1]
        by_cases h1 : st1.rotation_enabled = true
        · exact h1
        · have h1f : st1.rotation_enabled = false := by simpa using h1
          have hc2 : calls2 = [] := (hflag.2 h1f).2.2
          have hc1 : calls1 ≠ [] := by
            intro h0
            apply hc
            rw [← hcalls, h0, hc2]
            rfl
          split at htog
          · exact toggleBranch_calls _ _ _ _ _ _ _ htog hc1
          · simp only [Option.some.injEq, Prod.mk.injEq] at htog
            exact absurd htog.2.2.symm hc1

theorem run_disabled_idle (sys : Sys) (evs : List Event)
    (hst : sys.state.rotation_enabled = false)
    (hev : ∀ ev ∈ evs, ev.select_failed = true ∨ ev.inotify_ready = false ∨
      readToggleState ev.toggle_file = false) :
    run sys evs = some (⟨sys.state, sys.pipe ++ (evs.map Event.arrived).flatten⟩, []) := by
  induction evs generalizing sys with
  | nil => simp [run]
  | cons ev evs ih =>
    have h1 := iteration_disabled_idle sys ev hst (hev ev (by simp))
    have h2 := ih ⟨sys.state, sys.pipe ++ ev.arrived⟩ hst (fun e he => hev e (by simp [he]))
    simp [run, h1, h2]

theorem toggleBranch_inv (st st1 : State) (pipe pipe1 : Str) (toggle_file dbus_reply : Option Str)
    (calls1 : List Int)
    (h : toggleBranch st pipe toggle_file dbus_reply = some (st1, pipe1, calls1))
    (hinv : st.rotation_enabled = false → st.last_orientation = [])
    (h1 : st1.rotation_enabled = false) : st1.last_orientation = [] := by
  unfold toggleBranch at h
  simp only at h
  split at h
  · split at h
    · split at h
      · cases h
      · split at h
        · cases h
        · simp only [Option.some.injEq, Prod.mk.injEq] at h
          rw [← h.1] at h1
          cases h1
    · simp only [Option.some.injEq, Prod.mk.injEq] at h
      rw [← h.1]
  · simp only [Option.some.injEq, Prod.mk.injEq] at h
    rw [← h.1] at h1 ⊢
    exact hinv h1

theorem iteration_inv (sys next : Sys) (ev : Event) (calls : List Int)
    (h : iteration sys ev = some (next, calls))
    (hinv : sys.state.rotation_enabled = false → sys.state.last_orientation = [])
    (h1 : next.state.rotation_enabled = false) : next.state.last_orientation = [] := by
  unfold iteration at h
  simp only at h
  split at h
  · simp only [Option.some.injEq, Prod.mk.injEq] at h
    rw [← h.1] at h1 ⊢
    exact hinv h1
  · split at h
    · cases h
    · rename_i st1 pipe1 calls1 htog
      split at h
      · cases h
      · rename_i st2 pipe2 calls2 hsen
        simp only [Option.some.injEq, Prod.mk.injEq] at h
        obtain ⟨hnext, -⟩ := h
        have hflag := sensorBranch_flag _ _ _ _ _ _ hsen
        rw [← hnext] at h1 ⊢
        simp only at h1 ⊢
        have h1f : st1.rotation_enabled = false := by rw [← hflag.1]; exact h1
        rw [(hflag.2 h1f).1]
        split at htog
        · exact toggleBranch_inv _ _ _ _ _ _ _ htog hinv h1f
        · simp only [Option.some.injEq, Prod.mk.injEq] at htog
          rw [← htog.1] at h1f ⊢
          exact hinv h1f

theorem reachable_disabled_last (sys : Sys) (h : Reachable sys)
    (hd : sys.state.rotation_enabled = false) : sys.state.last_orientation = [] := by
  induction h with
  | start toggle_file => rfl
  | pass sys ev next calls _ hstep ih => exact iteration_inv sys next ev calls hstep ih hd

/-! ## Facts about `readToggleState` -/

theorem foldl_digits_eq_zero (ds : Str) (acc : Nat) :
    ds.foldl (fun acc c => 10 * acc + (c.toNat - 48)) acc = 0 ↔
      acc = 0 ∧ ∀ d ∈ ds, d.toNat - 48 = 0 := by
  induction ds generalizing acc with
  | nil => simp
  | cons d ds ih =>
    simp only [List.foldl_cons, ih, List.mem_cons, forall_eq_or_imp]
    constructor
    · rintro ⟨h1, h2⟩
      exact ⟨by omega, by omega, h2⟩
    · rintro ⟨h1, h2, h3⟩
      exact ⟨by omega, h3⟩

theorem digit_zero_iff (d : Char) (hd : isdigit d = true) : d.toNat - 48 = 0 ↔ d = '0' := by
  simp only [isdigit, Bool.and_eq_true, decide_eq_true_eq] at hd
  constructor
  · intro h
    have h48 : d.toNat = 48 := by omega
    have := Char.ofNat_toNat d
    rw [h48] at this
    exact this.symm
  · intro h
    rw [h]
    rfl

theorem leadingDigits_isdigit (c : Str) : ∀ d ∈ leadingDigits c, isdigit d = true := by
  intro d hd
  exact List.mem_takeWhile_imp hd

theorem digitsValue_leading_eq_zero (c : Str) :
    digitsValue (leadingDigits c) = 0 ↔ ∀ d ∈ leadingDigits c, d = '0' := by
  rw [digitsValue, foldl_digits_eq_zero]
  constructor
  · rintro ⟨-, h⟩ d hd
    exact (digit_zero_iff d (leadingDigits_isdigit c d hd)).1 (h d hd)
  · intro h
    exact ⟨rfl, fun d hd => (digit_zero_iff d (leadingDigits_isdigit c d hd)).2 (h d hd)⟩

theorem extractInt_eq_zero (c : Str) :
    extractInt c = 0 ↔ leadingInt c = none ∨ leadingInt c = some 0 := by
  unfold extractInt
  cases h : leadingInt c with
  | none => simp
  | some v =>
    simp only [INT_MAX, INT_MIN, reduceCtorEq, Option.some.injEq, false_or]
    split
    · constructor
      · intro h0; omega
      · intro h0; omega
    · split
      · constructor
        · intro h0; omega
        · intro h0; omega
      · rfl

theorem leadingInt_eq_none (c : Str) : leadingInt c = none ↔ leadingDigits c = [] := by
  unfold leadingInt
  split
  · simp [*]
  · split <;> simp [*]

theorem leadingInt_eq_zero (c : Str) :
    leadingInt c = some 0 ↔ leadingDigits c ≠ [] ∧ digitsValue (leadingDigits c) = 0 := by
  unfold leadingInt
  split
  · simp [*]
  · split
    · simp only [Option.some.injEq, ne_eq, not_false_eq_true, true_and, *]
      omega
    · simp only [Option.some.injEq, ne_eq, not_false_eq_true, true_and, *]
      omega

theorem readToggleState_some (c : Str) :
    readToggleState (some c) = true ↔ ∃ d ∈ leadingDigits c, d ≠ '0' := by
  have h1 : readToggleState (some c) = true ↔ ¬ extractInt c = 0 := by
    simp [readToggleState]
  rw [h1, extractInt_eq_zero, leadingInt_eq_none, leadingInt_eq_zero,
    digitsValue_leading_eq_zero]
  constructor
  · intro h
    by_contra hne
    push_neg at hne
    by_cases he : leadingDigits c = []
    · exact h (Or.inl he)
    · exact h (Or.inr ⟨he, hne⟩)
  · rintro ⟨d, hd, hne⟩ h
    rcases h with h | ⟨-, h⟩
    · rw [h] at hd
      simp at hd
    · exact hne (h d hd)

/-! ## Facts about the parse of a sensor line -/

theorem chomp_of_last_ne (l : Str) (h : l.getLast? ≠ some nl) : chomp l = l := by
  simp [chomp, h]

theorem chomp_append (x r : Str) (hr : r ≠ []) : chomp (x ++ r) = x ++ chomp r := by
  have hl : (x ++ r).getLast? = r.getLast? := by
    rw [List.getLast?_append]
    cases h : r.getLast? with
    | none => exact absurd (List.getLast?_eq_none_iff.1 h) hr
    | some a => rfl
  unfold chomp
  rw [hl]
  by_cases h : r.getLast? = some nl
  · simp only [h, if_true]
    rw [List.dropLast_append_of_ne_nil _ hr]
  · simp only [h, if_false]

theorem chomp_tagged (p r : Str) :
    chomp (p ++ changedTag ++ r) = p ++ changedTag ++ chomp r := by
  cases r with
  | nil =>
    rw [show chomp ([] : Str) = [] from rfl, List.append_nil,
      chomp_append p changedTag (by decide)]
    rfl
  | cons c r => exact chomp_append _ _ (by simp)

theorem sensorLine_tagged (last p r : Str) (hp : ¬ changedTag <:+: p) :
    sensorLine last (p ++ changedTag ++ r) = applyOrientation last (chomp r) := by
  rw [sensorLine, orientationText_of_chomp _ p (chomp r) (chomp_tagged p r) hp]

theorem chomp_initial_segment (l : Str) : chomp l <+: l := by
  unfold chomp
  split
  · exact List.dropLast_prefix l
  · exact List.prefix_refl l

theorem sensorLine_untagged (last line : Str) (h : ¬ changedTag <:+: line) :
    sensorLine last line = applyOrientation last (chomp line) := by
  rw [sensorLine, orientationText_of_absent]
  exact fun hc => h (hc.trans (chomp_initial_segment line).isInfix)

theorem first_occurrence (pat : Str) (n : Nat) :
    ∀ line : Str, line.length ≤ n → pat ≠ [] → pat <:+: line →
      ∃ p r, line = p ++ pat ++ r ∧ ¬ pat <:+: p := by
  induction n with
  | zero =>
    intro line hlen hpat hin
    have : line = [] := List.length_eq_zero.1 (Nat.le_zero.1 hlen)
    rw [this, List.infix_nil] at hin
    exact absurd hin hpat
  | succ n ih =>
    intro line hlen hpat hin
    obtain ⟨s, t, hst⟩ := hin
    by_cases hs : pat <:+: s
    · have hpl : 0 < pat.length := List.length_pos.2 hpat
      have hslen : s.length ≤ n := by
        have := congrArg List.length hst
        simp only [List.length_append] at this
        omega
      obtain ⟨p, r, hpr, hp⟩ := ih s hslen hpat hs
      refine ⟨p, r ++ pat ++ t, ?_, hp⟩
      rw [← hst, hpr]
      simp [List.append_assoc]
    · exact ⟨s, t, hst.symm, hs⟩

theorem applyOrientation_firstKeyword (last text : Str) (h : text ≠ last) :
    applyOrientation last text =
      match firstKeyword text with
      | some o => (text, [o.code])
      | none => (last, []) := by
  have e1 := find_isSome_iff "normal".toList text
  have e2 := find_isSome_iff "right-up".toList text
  have e3 := find_isSome_iff "left-up".toList text
  have e4 := find_isSome_iff "bottom-up".toList text
  unfold applyOrientation firstKeyword
  simp only [ne_eq, h, not_false_eq_true, if_true, e1, e2, e3, e4, List.find?, Orientation.keyword]
  by_cases h1 : "normal".toList <:+: text
  · simp only [h1, if_true, decide_True, Orientation.code]
  · by_cases h2 : "right-up".toList <:+: text
    · simp only [h1, h2, if_true, if_false, decide_True, decide_False, Orientation.code]
    · by_cases h3 : "left-up".toList <:+: text
      · simp only [h1, h2, h3, if_true, if_false, decide_True, decide_False, Orientation.code]
      · by_cases h4 : "bottom-up".toList <:+: text
        · simp only [h1, h2, h3, h4, if_true, if_false, decide_True, decide_False,
            Orientation.code]
        · simp only [h1, h2, h3, h4, if_false, decide_False]

theorem applyOrientation_same (last : Str) : applyOrientation last last = (last, []) := by
  simp [applyOrientation]

theorem applyOrientation_again (last text : Str) :
    applyOrientation (applyOrientation last text).1 text =
      ((applyOrientation last text).1, []) := by
  by_cases h : text = last
  · rw [h, applyOrientation_same, applyOrientation_same]
  · rw [applyOrientation_firstKeyword last text h]
    cases hk : firstKeyword text with
    | none =>
      simp only
      rw [applyOrientation_firstKeyword last text h, hk]
    | some o =>
      simp only
      exact applyOrientation_same text

/-! ## Facts about `getCurrentOrientation` -/

theorem captureLoop_short (fuel : Nat) (buf p : Str) (hlen : buf.length + p.length ≤ 510)
    (hfuel : p.length < fuel) : captureLoop fuel buf p = some (buf ++ p) := by
  induction fuel generalizing buf p with
  | zero => omega
  | succ fuel ih =>
    cases p with
    | nil =>
      have hn : 512 - buf.length ≠ 0 ∧ 512 - buf.length ≠ 1 := by
        simp only [List.length_nil] at hlen
        omega
      simp [captureLoop, fgets, hn.1, hn.2]
    | cons c cs =>
      have hn : 512 - buf.length ≠ 0 ∧ 512 - buf.length ≠ 1 := by
        simp only [List.length_cons] at hlen
        omega
      obtain ⟨k, hk⟩ : ∃ k, 512 - buf.length - 1 = k + 1 := ⟨512 - buf.length - 2, by omega⟩
      have happ := readChars_append (k + 1) (c :: cs)
      have hlt := readChars_rest_lt k c cs
      have hsum : (readChars (k + 1) (c :: cs)).1.length +
          (readChars (k + 1) (c :: cs)).2.length = (c :: cs).length := by
        rw [← List.length_append, happ]
      have hrec := ih (buf ++ (readChars (k + 1) (c :: cs)).1) (readChars (k + 1) (c :: cs)).2
        (by simp only [List.length_append]; omega) (by omega)
      simp only [captureLoop, fgets, hn.1, hn.2, if_false, hk, hrec, List.append_assoc, happ]

theorem captureLoop_full (fuel : Nat) (buf p : Str) (hbuf : buf.length ≤ 511)
    (hlen : 511 ≤ buf.length + p.length) : captureLoop fuel buf p = none := by
  induction fuel generalizing buf p with
  | zero => rfl
  | succ fuel ih =>
    by_cases hfull : buf.length = 511
    · have hn : 512 - buf.length = 1 := by omega
      have hrec := ih buf p hbuf hlen
      simp [captureLoop, fgets, hn, hrec]
    · cases p with
      | nil =>
        simp only [List.length_nil] at hlen
        omega
      | cons c cs =>
        have hn : 512 - buf.length ≠ 0 ∧ 512 - buf.length ≠ 1 := by omega
        obtain ⟨k, hk⟩ : ∃ k, 512 - buf.length - 1 = k + 1 := ⟨512 - buf.length - 2, by omega⟩
        have happ := readChars_append (k + 1) (c :: cs)
        have hle := readChars_length_le (k + 1) (c :: cs)
        have hsum : (readChars (k + 1) (c :: cs)).1.length +
            (readChars (k + 1) (c :: cs)).2.length = (c :: cs).length := by
          rw [← List.length_append, happ]
        have hrec := ih (buf ++ (readChars (k + 1) (c :: cs)).1)
          (readChars (k + 1) (c :: cs)).2
          (by simp only [List.length_append]; omega)
          (by simp only [List.length_append]; omega)
        simp only [captureLoop, fgets, hn.1, hn.2, if_false, hk, hrec]

theorem getCurrentOrientation_short (reply : Str) (h : reply.length ≤ 510) :
    getCurrentOrientation (some reply) = some (parseReply reply) := by
  have hc := captureLoop_short (reply.length + 1) [] reply (by simpa using h)
    (Nat.lt_succ_self _)
  simp only [List.nil_append] at hc
  simp only [getCurrentOrientation, hc]

theorem getCurrentOrientation_long (reply : Str) (h : 511 ≤ reply.length) :
    getCurrentOrientation (some reply) = none := by
  have hc := captureLoop_full (reply.length + 1) [] reply (by simp) (by simpa using h)
  simp only [getCurrentOrientation, hc]

theorem unbordered_variantTag : Unbordered variantTag := by
  intro q r hq h
  simp only [variantTag] at h ⊢
  rcases q with _ | ⟨c1, _ | ⟨c2, _ | ⟨c3, _ | ⟨c4, _ | ⟨c5, _ | ⟨c6, _ | ⟨c7, q⟩⟩⟩⟩⟩⟩⟩
  · exact absurd rfl hq
  all_goals simp [String.toList, List.cons_prefix_cons] at h ⊢
  exact h

theorem find_single_absent (c : Char) (x : Str) (h : c ∉ x) : find [c] x = none := by
  induction x with
  | nil => simp [find]
  | cons a x ih =>
    have ha : ¬ c = a := fun e => h (by simp [e])
    have hx : c ∉ x := fun e => h (by simp [e])
    simp [find, ha, ih hx]

theorem find_single_first (c : Char) (x y : Str) (h : c ∉ x) :
    find [c] (x ++ c :: y) = some x.length := by
  induction x with
  | nil => simp [find]
  | cons a x ih =>
    have ha : ¬ c = a := fun e => h (by simp [e])
    have hx : c ∉ x := fun e => h (by simp [e])
    simp [find, ha, ih hx]

theorem findFrom_drop (pat s t : Str) : findFrom pat (s ++ t) s.length =
    (find pat t).map (· + s.length) := by
  simp [findFrom]

theorem parseReply_no_variant (out : Str) (h : ¬ variantTag <:+: out) : parseReply out = [] := by
  simp only [parseReply, (find_eq_none_iff _ _).2 h]

theorem parseReply_no_quote (a b : Str) (ha : ¬ variantTag <:+: a) (hb : dq ∉ b) :
    parseReply (a ++ variantTag ++ b) = [] := by
  have hf := find_append_of_unbordered unbordered_variantTag a b ha
  have hq : dq ∉ variantTag ++ b := by
    intro h
    rcases List.mem_append.1 h with h | h
    · revert h; decide
    · exact hb h
  have h2 := findFrom_drop [dq] a (variantTag ++ b)
  rw [find_single_absent dq _ hq] at h2
  rw [List.append_assoc]
  simp only [parseReply, hf, h2, Option.map_none']

theorem parseReply_quote (a b rest : Str) (ha : ¬ variantTag <:+: a) (hb : dq ∉ b) :
    parseReply (a ++ variantTag ++ b ++ dq :: rest) =
      match find [dq] rest with
      | none => []
      | some n => rest.take n := by
  have hf := find_append_of_unbordered unbordered_variantTag a (b ++ dq :: rest) ha
  have hq : dq ∉ variantTag ++ b := by
    intro h
    rcases List.mem_append.1 h with h | h
    · revert h; decide
    · exact hb h
  have h2 : findFrom [dq] (a ++ (variantTag ++ (b ++ dq :: rest))) a.length =
      some ((variantTag ++ b).length + a.length) := by
    rw [findFrom_drop, ← List.append_assoc variantTag, find_single_first dq _ rest hq]
    rfl
  have hout : a ++ variantTag ++ b ++ dq :: rest = a ++ (variantTag ++ (b ++ dq :: rest)) := by
    simp [List.append_assoc]
  have hout2 : a ++ (variantTag ++ (b ++ dq :: rest)) =
      (a ++ (variantTag ++ b) ++ [dq]) ++ rest := by
    simp [List.append_assoc]
  have hlen : (a ++ (variantTag ++ b) ++ [dq]).length =
      (variantTag ++ b).length + a.length + 1 := by
    simp only [List.length_append, List.length_singleton]
    omega
  have h3 : findFrom [dq] (a ++ (variantTag ++ (b ++ dq :: rest)))
      ((variantTag ++ b).length + a.length + 1) =
      (find [dq] rest).map (· + ((variantTag ++ b).length + a.length + 1)) := by
    rw [hout2, ← hlen]
    exact findFrom_drop [dq] _ rest
  have hd : (a ++ (variantTag ++ (b ++ dq :: rest))).drop
      ((variantTag ++ b).length + a.length + 1) = rest := by
    rw [hout2]
    exact List.drop_left' hlen
  rw [hout]
  generalize a ++ (variantTag ++ (b ++ dq :: rest)) = out at hf h2 h3 hd
  simp only [parseReply, hf, h2, h3]
  cases hr : find [dq] rest with
  | none => rfl
  | some n =>
    simp only [Option.map_some', substrLen, hd]
    congr 1
    omega

/-! ## C1: the sensor branch applies the de-duplicated keyword sequence -/

/-- C1 (amended): starting from the startup state with the toggle enabled and no
last-applied orientation, for every finite sequence of sensor lines, arriving in any
number of batches, each of the form `<prefix>changed: <keyword>` with a prefix not
containing `changed: ` and each fitting the 256-byte line buffer (no newline inside,
at most 254 characters), the loop ends every pass and the `setOrientation` calls of
the sensor branch are the keyword sequence with consecutive duplicates removed,
mapped through normal 3, right-up 2, left-up 0, bottom-up 1. -/
theorem sensor_applies_deduplicated_keywords
    (toggle_file : Option Str) (henabled : readToggleState toggle_file = true)
    (batches : List (List (Str × Orientation)))
    (hform : ∀ b ∈ batches, ∀ x ∈ b, ¬ changedTag <:+: x.1 ∧ FitsLine (lineOf x)) :
    run (startup toggle_file) (batches.map (fun b => sensorEvent (b.map lineOf))) =
      some (⟨⟨true, lastText (lastSeen none (batches.flatten.map Prod.snd))⟩, []⟩,
        (dedupConsecutive (batches.flatten.map Prod.snd)).map Orientation.code) := by
  have h := run_sensorEvents none batches hform
  simp only [startup, henabled, dedupConsecutive]
  exact h

/-- The scenario of the specification: the toggle file holds `1`, the sensor emits
`...changed: right-up` twice and then `...changed: normal`; exactly two calls are
made, with codes 2 then 3. -/
theorem sensor_applies_deduplicated_keywords_witness :
    run (startup (some "1".toList))
      ([[("...".toList, Orientation.right_up)], [("...".toList, Orientation.right_up)],
        [("...".toList, Orientation.normal)]].map (fun b => sensorEvent (b.map lineOf))) =
      some (⟨⟨true, "normal".toList⟩, []⟩, [2, 3]) :=
  sensor_applies_deduplicated_keywords (some "1".toList) (by decide)
    [[("...".toList, Orientation.right_up)], [("...".toList, Orientation.right_up)],
      [("...".toList, Orientation.normal)]] (by decide)

set_option maxRecDepth 100000 in
/-- C1 as stated fails on a long line: the single line `<prefix>changed: normal` whose
prefix has 255 characters, names `right-up` and does not contain `changed: ` is read
by `fgets` in two pieces, and the sensor branch calls `setOrientation` with 2 and then
with 3, where the keyword sequence maps to the single code 3. -/
theorem long_sensor_line_applies_twice :
    ¬ changedTag <:+: longPrefix ∧
    run (startup (some "1".toList)) ([[(longPrefix, Orientation.normal)]].map
      (fun b => sensorEvent (b.map lineOf))) =
      some (⟨⟨true, "normal".toList⟩, []⟩, [2, 3]) ∧
    (dedupConsecutive ([[(longPrefix, Orientation.normal)]].flatten.map Prod.snd)).map
      Orientation.code = [3] := by
  decide

/-! ## C2: one mapping on both paths -/

/-- C2: the orientation-to-transform mapping is the same on both paths.  For each of
the four keywords, the enable transition whose query answers the keyword and the
sensor branch on the line `changed: <keyword>`, both from an empty last orientation,
call `setOrientation` exactly once, with the code 3, 2, 0, 1 for normal, right-up,
left-up, bottom-up, which is one set of three commands.  When the queried text is
none of the four keywords, or the text of a sensor line contains none of them, no
call is made and the last orientation stays as it was. -/
theorem transform_mapping_same_on_both_paths :
    [Orientation.normal, Orientation.right_up, Orientation.left_up,
        Orientation.bottom_up].map Orientation.code = [3, 2, 0, 1] ∧
    (∀ (o : Orientation) (pipe : Str) (ev : Event),
      ev.select_failed = false → ev.inotify_ready = true →
      readToggleState ev.toggle_file = true →
      getCurrentOrientation ev.dbus_reply = some o.keyword →
      iteration ⟨⟨false, []⟩, pipe⟩ ev = some (⟨⟨true, o.keyword⟩, []⟩, [o.code])) ∧
    (∀ o : Orientation,
      iteration ⟨⟨true, []⟩, []⟩ (sensorEvent [changedTag ++ o.keyword]) =
        some (⟨⟨true, o.keyword⟩, []⟩, [o.code])) ∧
    (∀ o : Orientation, (commands [o.code]).length = 3) ∧
    (∀ (sys : Sys) (ev : Event) (current : Str),
      sys.state.rotation_enabled = false →
      ev.select_failed = false → ev.inotify_ready = true →
      readToggleState ev.toggle_file = true →
      getCurrentOrientation ev.dbus_reply = some current →
      (∀ o : Orientation, current ≠ o.keyword) →
      iteration sys ev = some (⟨⟨true, sys.state.last_orientation⟩, []⟩, [])) ∧
    (∀ (last line : Str), (∀ o : Orientation, ¬ o.keyword <:+: orientationText line) →
      sensorLine last line = (last, [])) ∧
    (∀ (last l : Str), FitsLine l →
      (∀ o : Orientation, ¬ o.keyword <:+: orientationText (l ++ [nl])) →
      iteration ⟨⟨true, last⟩, []⟩ (sensorEvent [l]) = some (⟨⟨true, last⟩, []⟩, [])) ∧
    commands [] = [] := by
  refine ⟨rfl, ?_, ?_, ?_, ?_, ?_, ?_, rfl⟩
  · intro o pipe ev hsel hready hflag hq
    have h := iteration_enable ⟨⟨false, []⟩, pipe⟩ ev o.keyword rfl hsel hready hflag hq
    simp only [applyCurrent_keyword] at h
    exact h
  · intro o
    cases o <;> decide
  · intro o
    simp [commands, setOrientation]
  · intro sys ev current hst hsel hready hflag hq hun
    have h := iteration_enable sys ev current hst hsel hready hflag hq
    rw [applyCurrent_unknown _ _ hun] at h
    exact h
  · intro last line hun
    exact applyOrientation_unknown last _ hun
  · intro last l hfit hun
    have h := iteration_sensorEvent last [l] (by simpa using hfit)
    have h2 : sensorLine last (l ++ [nl]) = (last, []) := applyOrientation_unknown last _ hun
    simp only [sensorLines, h2] at h
    exact h

/-- An enable transition whose query answers `left-up` calls `setOrientation(0)` once,
and one whose query answers `sideways` calls nothing. -/
theorem transform_mapping_same_on_both_paths_witness :
    iteration ⟨⟨false, []⟩, "stale".toList⟩
        (toggleEvent "1".toList [] (replyWith "left-up".toList)) =
      some (⟨⟨true, "left-up".toList⟩, []⟩, [0]) ∧
    iteration ⟨⟨false, []⟩, "stale".toList⟩
        (toggleEvent "1".toList [] (replyWith "sideways".toList)) =
      some (⟨⟨true, []⟩, []⟩, []) :=
  ⟨transform_mapping_same_on_both_paths.2.1 Orientation.left_up "stale".toList
      (toggleEvent "1".toList [] (replyWith "left-up".toList)) rfl rfl (by decide) (by decide),
    transform_mapping_same_on_both_paths.2.2.2.2.1 ⟨⟨false, []⟩, "stale".toList⟩
      (toggleEvent "1".toList [] (replyWith "sideways".toList)) "sideways".toList
      rfl rfl rfl (by decide) (by decide) (by intro o; cases o <;> decide)⟩

/-! ## C3: nothing is applied while rotation is disabled -/

/-- C3: a pass of the loop calls `setOrientation` only if `rotation_enabled` is true
after its toggle handling; the sensor branch never changes the flag, and with the flag
false it reads nothing and calls nothing.  So over every sequence of passes met while
disabled in which the flag is not switched on, whatever sensor bytes arrive, every
pass ends, no call is made and the state of the loop is unchanged. -/
theorem no_apply_while_disabled :
    (∀ (sys next : Sys) (ev : Event) (calls : List Int),
      iteration sys ev = some (next, calls) → calls ≠ [] →
      next.state.rotation_enabled = true) ∧
    (∀ (st st2 : State) (pipe pipe2 : Str) (ready : Bool) (calls2 : List Int),
      sensorBranch st pipe ready = some (st2, pipe2, calls2) →
      st2.rotation_enabled = st.rotation_enabled ∧
        (st.rotation_enabled = false → st2 = st ∧ pipe2 = pipe ∧ calls2 = [])) ∧
    (∀ (sys : Sys) (evs : List Event), sys.state.rotation_enabled = false →
      (∀ ev ∈ evs, ev.select_failed = true ∨ ev.inotify_ready = false ∨
        readToggleState ev.toggle_file = false) →
      run sys evs = some (⟨sys.state, sys.pipe ++ (evs.map Event.arrived).flatten⟩, [])) :=
  ⟨iteration_calls, sensorBranch_flag, run_disabled_idle⟩

/-- Two batches of sensor lines that arrive while disabled change nothing and apply
nothing; they stay in the pipe. -/
theorem no_apply_while_disabled_witness :
    run ⟨⟨false, []⟩, []⟩
        [sensorEvent ["changed: left-up".toList], sensorEvent ["changed: normal".toList]] =
      some (⟨⟨false, []⟩, [] ++ ([sensorEvent ["changed: left-up".toList],
        sensorEvent ["changed: normal".toList]].map Event.arrived).flatten⟩, []) :=
  no_apply_while_disabled.2.2 ⟨⟨false, []⟩, []⟩
    [sensorEvent ["changed: left-up".toList], sensorEvent ["changed: normal".toList]]
    rfl (by decide)

/-! ## C4: de-duplication -/

/-- C4 (amended): de-duplication is by the text of the orientation.  For every last
orientation and every line the sensor loop reads, if the text the line parses to (what
follows the first `changed: `, or the whole line, without the trailing newline) equals
the stored last orientation, the loop body makes no call and leaves the last
orientation as it is, and so does the whole pass for a line that fits the line buffer.
In particular the line `<prefix>changed: <keyword>` makes no call when the last
orientation is that keyword.  The same line read twice in a row makes the calls of
reading it once: at most one set of external commands. -/
theorem dedup_by_text :
    (∀ last line : Str, orientationText line = last → sensorLine last line = (last, [])) ∧
    (∀ (last l : Str), FitsLine l → orientationText (l ++ [nl]) = last →
      iteration ⟨⟨true, last⟩, []⟩ (sensorEvent [l]) = some (⟨⟨true, last⟩, []⟩, [])) ∧
    (∀ (o : Orientation) (p : Str), ¬ changedTag <:+: p →
      sensorLine o.keyword (lineOf (p, o) ++ [nl]) = (o.keyword, [])) ∧
    (∀ (last l : Str), FitsLine l →
      iteration ⟨⟨true, last⟩, []⟩ (sensorEvent [l, l]) =
        iteration ⟨⟨true, last⟩, []⟩ (sensorEvent [l])) ∧
    (∀ last line : Str, (commands (sensorLine last line).2).length = 0 ∨
      (commands (sensorLine last line).2).length = 3) := by
  have hsame : ∀ last line : Str, orientationText line = last →
      sensorLine last line = (last, []) := by
    intro last line h
    rw [sensorLine, h, applyOrientation_same]
  refine ⟨hsame, ?_, ?_, ?_, ?_⟩
  · intro last l hfit h
    have h1 := iteration_sensorEvent last [l] (by simpa using hfit)
    simp only [sensorLines, hsame last _ h] at h1
    exact h1
  · intro o p hp
    have h := sensorLine_lineOf (some o) (p, o) hp
    simpa [lastText] using h
  · intro last l hfit
    have h1 := iteration_sensorEvent last [l] (by simpa using hfit)
    have h2 := iteration_sensorEvent last [l, l] (by simpa using hfit)
    have h3 := applyOrientation_again last (orientationText (l ++ [nl]))
    rw [h1, h2]
    simp only [sensorLines, sensorLine, h3, List.append_nil]
  · intro last line
    by_cases h : orientationText line = last
    · left
      rw [hsame last line h]
      rfl
    · rw [sensorLine, applyOrientation_firstKeyword last _ h]
      cases firstKeyword (orientationText line) with
      | none => left; rfl
      | some o => right; simp [commands, setOrientation]

/-- With `left-up` applied, the line `   Accelerometer orientation changed: left-up`
makes no call and leaves the state as it is. -/
theorem dedup_by_text_witness :
    iteration ⟨⟨true, "left-up".toList⟩, []⟩
        (sensorEvent ["   Accelerometer orientation changed: left-up".toList]) =
      some (⟨⟨true, "left-up".toList⟩, []⟩, []) :=
  dedup_by_text.2.1 "left-up".toList "   Accelerometer orientation changed: left-up".toList
    (by decide) (by decide)

/-- C4 as stated fails: de-duplication is not by orientation.  After the line
`changed: normal` was applied from the startup state, the line `changed: normal `
(with a blank at its end) parses to the same orientation, normal, and the loop calls
`setOrientation(3)` a second time and changes the last orientation: two sets of
commands for the same orientation twice in a row. -/
theorem same_orientation_other_text_applies_again :
    run (startup (some "1".toList)) [sensorEvent ["changed: normal".toList]] =
      some (⟨⟨true, "normal".toList⟩, []⟩, [3]) ∧
    firstKeyword (orientationText ("changed: normal".toList ++ [nl])) =
      some Orientation.normal ∧
    firstKeyword (orientationText ("changed: normal ".toList ++ [nl])) =
      some Orientation.normal ∧
    iteration ⟨⟨true, "normal".toList⟩, []⟩ (sensorEvent ["changed: normal ".toList]) =
      some (⟨⟨true, "normal ".toList⟩, []⟩, [3]) ∧
    (commands [3, 3]).length = 6 := by
  decide

/-! ## C5: `readToggleState` -/

/-- C5: `readToggleState` is a total function to `bool`.  It returns false exactly
when the flag file cannot be opened, or its content is empty or has no leading
integer, or the leading integer is 0; it returns true for every content whose
leading integer is not 0.  In terms of the text: it returns true exactly when the run
of digits after the leading white space and an optional sign has a digit other
than `0`. -/
theorem readToggleState_false_iff :
    (∀ file : Option Str, readToggleState file = false ↔
      (file = none ∨
        ∃ c, file = some c ∧ (c = [] ∨ leadingInt c = none ∨ leadingInt c = some 0))) ∧
    (∀ (c : Str) (v : Int), leadingInt c = some v → v ≠ 0 → readToggleState (some c) = true) ∧
    (∀ c : Str, readToggleState (some c) = true ↔ ∃ d ∈ leadingDigits c, d ≠ '0') := by
  have hsome : ∀ c : Str, readToggleState (some c) = false ↔
      (leadingInt c = none ∨ leadingInt c = some 0) := by
    intro c
    rw [← extractInt_eq_zero]
    simp [readToggleState]
  refine ⟨?_, ?_, readToggleState_some⟩
  · intro file
    cases file with
    | none => simp [readToggleState]
    | some c =>
      rw [hsome]
      constructor
      · intro h
        exact Or.inr ⟨c, rfl, Or.inr h⟩
      · rintro (h | ⟨c2, hc, h⟩)
        · cases h
        · cases hc
          rcases h with h | h
          · left
            rw [h]
            rfl
          · exact h
  · intro c v hv hne
    cases hb : readToggleState (some c) with
    | true => rfl
    | false =>
      rcases (hsome c).1 hb with h | h
      · rw [h] at hv
        cases hv
      · rw [h] at hv
        cases hv
        exact absurd rfl hne

/-- The content ` -007 ` has the leading integer -7 and reads as enabled; the contents
`0`, `off` and the empty file read as disabled. -/
theorem readToggleState_false_iff_witness :
    readToggleState (some " -007 ".toList) = true ∧
    (readToggleState (some "off".toList) = false ↔
      (some "off".toList = none ∨ ∃ c, some "off".toList = some c ∧
        (c = [] ∨ leadingInt c = none ∨ leadingInt c = some 0))) :=
  ⟨readToggleState_false_iff.2.1 " -007 ".toList (-7) (by decide) (by decide),
    readToggleState_false_iff.1 (some "off".toList)⟩

/-! ## C6: the enable, disable, enable cycle -/

/-- C6: in an enabled state a toggle event that disables rotation clears the last
orientation.  When that state had the keyword `k` as last orientation, the next toggle
event that enables rotation with a query answering `k` makes exactly one call, with
the code of `k`, and stores `k`.  In every reachable disabled state the last
orientation is empty, so re-enabling from it with any of the four keywords makes
exactly one call. -/
theorem enable_disable_enable_cycle :
    (∀ (sys : Sys) (ev : Event), sys.state.rotation_enabled = true →
      ev.select_failed = false → ev.inotify_ready = true →
      readToggleState ev.toggle_file = false →
      iteration sys ev = some (⟨⟨false, []⟩, sys.pipe ++ ev.arrived⟩, [])) ∧
    (∀ (sys : Sys) (evOff evOn : Event) (k : Orientation),
      sys.state.rotation_enabled = true → sys.state.last_orientation = k.keyword →
      evOff.select_failed = false → evOff.inotify_ready = true →
      readToggleState evOff.toggle_file = false →
      evOn.select_failed = false → evOn.inotify_ready = true →
      readToggleState evOn.toggle_file = true →
      getCurrentOrientation evOn.dbus_reply = some k.keyword →
      run sys [evOff, evOn] = some (⟨⟨true, k.keyword⟩, []⟩, [k.code])) ∧
    (∀ sys : Sys, Reachable sys → sys.state.rotation_enabled = false →
      sys.state.last_orientation = []) ∧
    (∀ (sys : Sys) (evOn : Event) (k : Orientation), Reachable sys →
      sys.state.rotation_enabled = false →
      evOn.select_failed = false → evOn.inotify_ready = true →
      readToggleState evOn.toggle_file = true →
      getCurrentOrientation evOn.dbus_reply = some k.keyword →
      iteration sys evOn = some (⟨⟨true, k.keyword⟩, []⟩, [k.code])) := by
  refine ⟨iteration_disable, ?_, reachable_disabled_last, ?_⟩
  · intro sys evOff evOn k hst _ hsel1 hready1 hflag1 hsel2 hready2 hflag2 hq
    have h1 := iteration_disable sys evOff hst hsel1 hready1 hflag1
    have h2 := iteration_enable ⟨⟨false, []⟩, sys.pipe ++ evOff.arrived⟩ evOn k.keyword rfl
      hsel2 hready2 hflag2 hq
    simp only [applyCurrent_keyword] at h2
    simp [run, h1, h2]
  · intro sys evOn k hr hst hsel hready hflag hq
    have h := iteration_enable sys evOn k.keyword hst hsel hready hflag hq
    rw [reachable_disabled_last sys hr hst, applyCurrent_keyword] at h
    exact h

/-- Rotation was enabled with `right-up` applied; the flag is set to 0 and then back
to 1 while the device still reports `right-up`: one call, with code 2. -/
theorem enable_disable_enable_cycle_witness :
    run ⟨⟨true, "right-up".toList⟩, []⟩
        [toggleEvent "0".toList [] [], toggleEvent "1".toList [] (replyWith "right-up".toList)] =
      some (⟨⟨true, "right-up".toList⟩, []⟩, [2]) :=
  enable_disable_enable_cycle.2.1 ⟨⟨true, "right-up".toList⟩, []⟩
    (toggleEvent "0".toList [] []) (toggleEvent "1".toList [] (replyWith "right-up".toList))
    Orientation.right_up rfl rfl rfl rfl (by decide) rfl rfl (by decide) (by decide)

/-! ## C7: the drain on enable -/

/-- C7: in the pass that performs the transition from disabled to enabled, whatever
the pipe holds (any number of buffered lines, and the bytes that arrive with the
pass), all of it is discarded: the pipe is empty afterwards and the drain loop ends.
The calls of that pass are those of the enable transition for the query answer
alone: none, or the single call for the keyword the query answered. -/
theorem drain_on_enable (sys : Sys) (ev : Event) (current : Str)
    (hst : sys.state.rotation_enabled = false)
    (hsel : ev.select_failed = false) (hready : ev.inotify_ready = true)
    (hflag : readToggleState ev.toggle_file = true)
    (hq : getCurrentOrientation ev.dbus_reply = some current) :
    drainLoop ((sys.pipe ++ ev.arrived).length + 1) (sys.pipe ++ ev.arrived) = some [] ∧
    iteration sys ev =
      some (⟨⟨true, (applyCurrent sys.state.last_orientation current).1⟩, []⟩,
        (applyCurrent sys.state.last_orientation current).2) ∧
    ((applyCurrent sys.state.last_orientation current).2 = [] ∨
      ∃ o : Orientation, current = o.keyword ∧
        (applyCurrent sys.state.last_orientation current).2 = [o.code]) := by
  refine ⟨drainLoop_eq _ _ (Nat.lt_succ_self _),
    iteration_enable sys ev current hst hsel hready hflag hq, ?_⟩
  by_cases h : ∃ o : Orientation, current = o.keyword
  · obtain ⟨o, ho⟩ := h
    by_cases hl : current = sys.state.last_orientation
    · left
      simp [applyCurrent, hl]
    · right
      refine ⟨o, ho, ?_⟩
      subst ho
      rw [applyCurrent_keyword_ne _ o hl]
  · left
    exact congrArg Prod.snd (applyCurrent_unknown _ _ (fun o ho => h ⟨o, ho⟩))

/-- Three sensor lines are buffered while disabled; the enable transition whose query
answers `normal` empties the pipe and makes the single call `setOrientation(3)`, not
the calls 2, 0, 1 of the buffered lines. -/
theorem drain_on_enable_witness :
    iteration ⟨⟨false, []⟩, joinLines ["changed: right-up".toList, "changed: left-up".toList,
        "changed: bottom-up".toList]⟩ (toggleEvent "1".toList [] (replyWith "normal".toList)) =
      some (⟨⟨true, "normal".toList⟩, []⟩, [3]) :=
  (drain_on_enable ⟨⟨false, []⟩, joinLines ["changed: right-up".toList, "changed: left-up".toList,
      "changed: bottom-up".toList]⟩ (toggleEvent "1".toList [] (replyWith "normal".toList))
    "normal".toList rfl rfl rfl (by decide) (by decide)).2.1

/-! ## C8: a toggle event that does not change the flag -/

/-- C8: when the flag read after a toggle event equals `rotation_enabled`, the toggle
handling is a no-op: both loop variables and the pipe are unchanged and no call is
made.  This holds whatever the orientation service would answer, also when the query
would not return: no query is made.  The whole pass is then the pass without a
toggle event. -/
theorem toggle_same_value_is_noop :
    (∀ (st : State) (pipe : Str) (toggle_file dbus_reply : Option Str),
      readToggleState toggle_file = st.rotation_enabled →
      toggleBranch st pipe toggle_file dbus_reply = some (st, pipe, [])) ∧
    (∀ (sys : Sys) (ev : Event), ev.inotify_ready = true →
      readToggleState ev.toggle_file = sys.state.rotation_enabled →
      iteration sys ev = iteration sys { ev with inotify_ready := false }) := by
  refine ⟨toggleBranch_same, ?_⟩
  intro sys ev hready hflag
  simp [iteration, hready, toggleBranch_same sys.state _ _ ev.dbus_reply hflag]

/-- The flag file is rewritten with `1` while rotation is enabled with `left-up`
applied: state and pipe stay as they are and nothing is called, though a query would
not return on the reply `longReply`. -/
theorem toggle_same_value_is_noop_witness :
    toggleBranch ⟨true, "left-up".toList⟩ "changed: normal".toList (some "1".toList)
        (some longReply) =
      some (⟨true, "left-up".toList⟩, "changed: normal".toList, []) :=
  toggle_same_value_is_noop.1 ⟨true, "left-up".toList⟩ "changed: normal".toList
    (some "1".toList) (some longReply) (by decide)

/-! ## C9: the parse of a sensor line -/

/-- C9: for every line the sensor loop reads, when the line contains `changed: ` it
splits at the first occurrence as `p ++ "changed: " ++ r`, and the result is that of
the text `r` without a trailing newline: the text `p` before the marker has no
influence.  When `changed: ` is absent the whole line without its trailing newline
is used.  On a text that differs from the last orientation the keywords are matched
as substrings and the first match in the order normal, right-up, left-up, bottom-up
gives the single call, with code 3, 2, 0, 1, and the text becomes the last
orientation; with no match, or on the text that is the last orientation, nothing
happens. -/
theorem sensor_line_parsing :
    (∀ line : Str, changedTag <:+: line →
      ∃ p r, line = p ++ changedTag ++ r ∧ ¬ changedTag <:+: p) ∧
    (∀ last p r : Str, ¬ changedTag <:+: p →
      sensorLine last (p ++ changedTag ++ r) = applyOrientation last (chomp r)) ∧
    (∀ last p q r : Str, ¬ changedTag <:+: p → ¬ changedTag <:+: q →
      sensorLine last (p ++ changedTag ++ r) = sensorLine last (q ++ changedTag ++ r)) ∧
    (∀ last line : Str, ¬ changedTag <:+: line →
      sensorLine last line = applyOrientation last (chomp line)) ∧
    (∀ l : Str, chomp (l ++ [nl]) = l) ∧
    (∀ l : Str, l.getLast? ≠ some nl → chomp l = l) ∧
    (∀ last text : Str, text ≠ last →
      applyOrientation last text =
        match firstKeyword text with
        | some o => (text, [o.code])
        | none => (last, [])) ∧
    (∀ last : Str, applyOrientation last last = (last, [])) ∧
    [Orientation.normal, Orientation.right_up, Orientation.left_up,
        Orientation.bottom_up].map Orientation.code = [3, 2, 0, 1] := by
  refine ⟨fun line h => first_occurrence changedTag line.length line (Nat.le_refl _)
      (by decide) h, sensorLine_tagged, ?_, sensorLine_untagged, chomp_append_nl,
    chomp_of_last_ne, applyOrientation_firstKeyword, applyOrientation_same, rfl⟩
  intro last p q r hp hq
  rw [sensorLine_tagged last p r hp, sensorLine_tagged last q r hq]

/-- The line `normal changed: left-up right-up` with its newline: the `normal` before
the marker is ignored, and of the two keywords after it `right-up` comes first in the
fixed order, so the call is `setOrientation(2)`. -/
theorem sensor_line_parsing_witness :
    sensorLine [] ("normal ".toList ++ changedTag ++ ("left-up right-up".toList ++ [nl])) =
      ("left-up right-up".toList, [2]) :=
  (sensor_line_parsing.2.1 [] "normal ".toList ("left-up right-up".toList ++ [nl])
    (by decide)).trans (by decide)

/-! ## C10: the reply of the orientation service -/

/-- The parse of the reply when the capture loop ends.  When `popen` fails the result
is the empty text.  A reply of at most 510 bytes is captured whole and the result is
its parse: the empty text when `variant` is absent, when no double quote follows the
first `variant`, or when only one does; otherwise the text strictly between the first
double quote after the first `variant` and the next double quote.  An empty or
`undefined` result makes the enable transition call nothing and keep the last
orientation. -/
theorem query_reply_parsing :
    getCurrentOrientation none = some [] ∧
    (∀ reply : Str, reply.length ≤ 510 →
      getCurrentOrientation (some reply) = some (parseReply reply)) ∧
    (∀ out : Str, ¬ variantTag <:+: out → parseReply out = []) ∧
    (∀ a b : Str, ¬ variantTag <:+: a → dq ∉ b → parseReply (a ++ variantTag ++ b) = []) ∧
    (∀ a b r : Str, ¬ variantTag <:+: a → dq ∉ b → dq ∉ r →
      parseReply (a ++ variantTag ++ b ++ dq :: r) = []) ∧
    (∀ a b r c : Str, ¬ variantTag <:+: a → dq ∉ b → dq ∉ r →
      parseReply (a ++ variantTag ++ b ++ dq :: (r ++ dq :: c)) = r) ∧
    (∀ (sys : Sys) (ev : Event) (current : Str), sys.state.rotation_enabled = false →
      ev.select_failed = false → ev.inotify_ready = true →
      readToggleState ev.toggle_file = true →
      getCurrentOrientation ev.dbus_reply = some current →
      current = [] ∨ current = "undefined".toList →
      iteration sys ev = some (⟨⟨true, sys.state.last_orientation⟩, []⟩, [])) := by
  refine ⟨rfl, getCurrentOrientation_short, parseReply_no_variant, parseReply_no_quote,
    ?_, ?_, ?_⟩
  · intro a b r ha hb hr
    rw [parseReply_quote a b r ha hb, find_single_absent dq r hr]
  · intro a b r c ha hb hr
    rw [parseReply_quote a b _ ha hb, find_single_first dq r c hr]
    simp
  · intro sys ev current hst hsel hready hflag hq hcur
    have h := iteration_enable sys ev current hst hsel hready hflag hq
    have hun : ∀ o : Orientation, current ≠ o.keyword := by
      intro o
      rcases hcur with hc | hc <;> rw [hc] <;> cases o <;> decide
    rw [applyCurrent_unknown _ _ hun] at h
    exact h

/-- The reply that `dbus-send` prints for `bottom-up` is parsed to `bottom-up`. -/
theorem query_reply_parsing_witness :
    getCurrentOrientation (some (replyWith "bottom-up".toList)) =
      some (parseReply (replyWith "bottom-up".toList)) ∧
    parseReply (replyWith "bottom-up".toList) = "bottom-up".toList :=
  ⟨query_reply_parsing.2.1 (replyWith "bottom-up".toList) (by decide), by decide⟩

set_option maxRecDepth 100000 in
/-- C10 at a reply that fills the buffer: the reply `longReply` has 615 bytes, its
first 511 bytes parse to `normal`, and the capture loop never ends on it, whatever the
fuel: once 511 bytes are stored every further `fgets` call has size 1, stores the
empty text and succeeds.  So `getCurrentOrientation` does not return. -/
theorem query_hangs_on_full_buffer :
    longReply.length = 615 ∧
    parseReply (longReply.take 511) = "normal".toList ∧
    (∀ fuel : Nat, captureLoop fuel [] longReply = none) ∧
    getCurrentOrientation (some longReply) = none :=
  ⟨by decide, by decide,
    fun fuel => captureLoop_full fuel [] longReply (by decide) (by decide),
    getCurrentOrientation_long longReply (by decide)⟩

end GPD4Rotate
